import Mathlib

/-!
Verification development for the symbol-resolution / hover core of an ARM
deployment-template language service.  The development shallowly embeds:

* the JSON parse-tree layer consumed by the code (object / array / string /
  property nodes with source spans, plus the narrowing helpers
  asObjectValue / asArrayValue / asStringValue and ObjectValue.getPropertyValue);
* CachedValue.getOrCacheValue (single-slot memoization);
* TopLevelVariableDefinition.value (copy-block expansion);
* TopLevelCopyBlockVariableDefinition.createIfValid;
* the Hover Info family (FunctionInfo, UserFunctionInfo.getUsage,
  UserNamespaceInfo.getHoverText, ParameterReferenceInfo).

Machine-level JavaScript details that matter are modelled explicitly:
falsy-ness of the empty string in the conditional-expression tests of
Hover.ts, and the fact that an exception thrown inside getOrCacheValue
leaves the cache slot unassigned.
-/

/-- Language.Span: an immutable range of character offsets in the source
document (start index and length). -/
structure Language.Span where
  startIndex : Nat
  length : Nat
deriving Repr, DecidableEq

/-- Json.StringValue: a JSON string token, carrying its span and its
unquoted text. -/
structure Json.StringValue where
  span : Language.Span
  unquotedValue : String
deriving Repr, DecidableEq

mutual

/-- Json.Value: the JSON parse-tree node hierarchy consumed by the
definition model.  Numbers, booleans and nulls are collapsed into
`otherValue` (the code under verification never inspects their payload,
only their identity and span); the tag distinguishes concrete leaves. -/
inductive Json.Value where
  | objectValue (span : Language.Span) (properties : List Json.Property)
  | arrayValue (span : Language.Span) (elements : List Json.Value)
  | stringValue (sv : Json.StringValue)
  | otherValue (span : Language.Span) (tag : Nat)

/-- Json.Property: a name/value pair inside a JSON object; the value may be
absent (null in the source representation). -/
inductive Json.Property where
  | mk (span : Language.Span) (nameValue : Json.StringValue) (value : Option Json.Value)

end

/-- span of a property -/
def Json.Property.span : Json.Property → Language.Span
  | .mk s _ _ => s

/-- nameValue of a property -/
def Json.Property.nameValue : Json.Property → Json.StringValue
  | .mk _ n _ => n

/-- value of a property -/
def Json.Property.value : Json.Property → Option Json.Value
  | .mk _ _ v => v

/-- span of a JSON value -/
def Json.Value.span : Json.Value → Language.Span
  | .objectValue s _ => s
  | .arrayValue s _ => s
  | .stringValue sv => sv.span
  | .otherValue s _ => s

/-- Modelled from the spec: the ObjectValue narrowed view of the JSON layer
(`helper predicates to narrow a generic value to object/array/string
kinds`); JSON.ts itself is an external collaborator not under src/. -/
structure Json.ObjectValueData where
  span : Language.Span
  properties : List Json.Property

/-- Modelled from the spec: Json.asObjectValue narrows a possibly-null
value to an object value, giving nothing for any other kind. -/
def Json.asObjectValue : Option Json.Value → Option Json.ObjectValueData
  | some (.objectValue s ps) => some ⟨s, ps⟩
  | _ => none

/-- Modelled from the spec: the ArrayValue narrowed view of the JSON layer. -/
structure Json.ArrayValueData where
  span : Language.Span
  elements : List Json.Value

/-- Modelled from the spec: Json.asArrayValue narrows a possibly-null
value to an array value. -/
def Json.asArrayValue : Option Json.Value → Option Json.ArrayValueData
  | some (.arrayValue s es) => some ⟨s, es⟩
  | _ => none

/-- Modelled from the spec: Json.asStringValue narrows a possibly-null
value to a string value. -/
def Json.asStringValue : Option Json.Value → Option Json.StringValue
  | some (.stringValue sv) => some sv
  | _ => none

/-- The JavaScript toLowerCase method on strings, embedded as a char-wise
lower-casing of the character list of the string so that it reduces structurally;
it agrees with String.toLower (see jsToLower_eq_toLower). -/
def jsToLower (s : String) : String :=
  String.mk (s.data.map Char.toLower)


/-- Modelled from the spec: ObjectValue.getPropertyValue — property lookup
by name with case-insensitive property-name matching (first match), giving
the value of that property (which may itself be absent). -/
def Json.ObjectValueData.getPropertyValue (o : Json.ObjectValueData) (propertyName : String) :
    Option Json.Value :=
  match o.properties.find? (fun p => jsToLower p.nameValue.unquotedValue == jsToLower propertyName) with
  | some p => p.value
  | none => none

/-- Modelled from the spec: constants.ts templateKeys.copy, the well-known
copy key of ARM templates. -/
def templateKeys.copy : String := "copy"

/-- Modelled from the spec: constants.ts templateKeys.loopVarName, the name
sub-property of a copy-block loop spec. -/
def templateKeys.loopVarName : String := "name"

/-- Modelled from the spec: constants.ts templateKeys.loopVarInput, the
input sub-property of a copy-block loop spec. -/
def templateKeys.loopVarInput : String := "input"

/-- The body of the for-loop in TopLevelVariableDefinition.value
(VariableDefinition.ts lines 74-94): one element of the copy array either
contributes a synthesized property (when it is an object with a string
name property and a present input property) or contributes nothing. -/
def copyElementToProperty (loopVar : Json.Value) : Option Json.Property :=
  match Json.asObjectValue (some loopVar) with
  | some loopVarObject =>
    match Json.asStringValue (loopVarObject.getPropertyValue templateKeys.loopVarName),
          loopVarObject.getPropertyValue templateKeys.loopVarInput with
    | some name, some input =>
        some (Json.Property.mk input.span name
          (some (Json.Value.arrayValue input.span [input])))
    | _, _ => none
  | none => none

/-- The computation cached by TopLevelVariableDefinition.value
(VariableDefinition.ts lines 44-104): if the value of the wrapped property is an
object with a copy property whose value is an array, synthesize an object
that keeps the non-copy members (case-insensitive filter) and appends one
array-valued member per well-formed loop spec; otherwise return the value
as is. -/
def computeVariableValue (property : Json.Property) : Option Json.Value :=
  let value := property.value
  match Json.asObjectValue value with
  | some valueObject =>
    match Json.asArrayValue (valueObject.getPropertyValue templateKeys.copy) with
    | some copyPropertyArray =>
      let copyKeyLC := jsToLower templateKeys.copy
      let modifiedMembers := valueObject.properties.filter
        (fun prop => jsToLower prop.nameValue.unquotedValue != copyKeyLC)
      some (Json.Value.objectValue valueObject.span
        (modifiedMembers ++ copyPropertyArray.elements.filterMap copyElementToProperty))
    | none => value
  | none => value

/-- TopLevelCopyBlockVariableDefinition (VariableDefinition.ts lines
129-204): the copy-block object, its nameValue, and the eagerly computed
value — a one-element array wrapping the input, or nothing when the input
property is absent (constructor line 158). -/
structure TopLevelCopyBlockVariableDefinition where
  copyVariableObject : Json.ObjectValueData
  nameValue : Json.StringValue
  value : Option Json.Value

/-- TopLevelCopyBlockVariableDefinition.createIfValid (VariableDefinition.ts
lines 161-184): narrow to an object, require a string-valued name property,
then construct the definition with whatever the input property lookup gave
(the input lookup result is not itself tested). -/
def TopLevelCopyBlockVariableDefinition.createIfValid (copyVariableObject : Json.Value) :
    Option TopLevelCopyBlockVariableDefinition :=
  match Json.asObjectValue (some copyVariableObject) with
  | some asObject =>
    match Json.asStringValue (asObject.getPropertyValue templateKeys.loopVarName) with
    | some nameValue =>
      let value := asObject.getPropertyValue templateKeys.loopVarInput
      some { copyVariableObject := asObject
             nameValue := nameValue
             value := value.map (fun input => Json.Value.arrayValue input.span [input]) }
    | none => none
  | none => none

/-- The private state of CachedValue (CachedValue.ts): the _isCached flag and the
_value slot move in lockstep (the slot is assigned immediately before the
flag is set, and an exception in the compute function skips both), so the
state is a sum of uncomputed and computed-with-value. -/
inductive CacheState (T : Type) where
  | uncomputed
  | computed (v : T)
deriving Repr, DecidableEq

/-- CachedValue.getOrCacheValue (CachedValue.ts lines 216-223).  The compute
function is modelled with its JavaScript capabilities made explicit: it may
carry out side effects (state σ) and may throw (Except ε).  On an
uncomputed cell the compute function runs; a normal result is stored and
the cell becomes computed; a thrown exception propagates and the cell stays
uncomputed (the assignments on lines 218-219 are skipped).  On a computed
cell the stored value is returned and the compute function is not run. -/
def CachedValue.getOrCacheValue {T ε σ : Type} (cell : CacheState T)
    (calculateValue : σ → Except ε T × σ) (s : σ) :
    Except ε T × CacheState T × σ :=
  match cell with
  | .uncomputed =>
    match calculateValue s with
    | (.ok v, s') => (.ok v, .computed v, s')
    | (.error e, s') => (.error e, .uncomputed, s')
  | .computed v => (.ok v, .computed v, s)

/-- A compute function instrumented with an invocation counter: running it
increments the counter, so "invoked exactly once" is visible in the final
state. -/
def countingCompute {T : Type} (f : Unit → T) : Nat → Except Empty T × Nat :=
  fun k => (Except.ok (f ()), k + 1)

/-- One read of the TopLevelVariableDefinition.value getter: pull from the
cache cell, computing computeVariableValue on a miss, with the invocation
counter threaded through. -/
def valueRead (property : Json.Property)
    (st : CacheState (Option Json.Value) × Nat) :
    Except Empty (Option Json.Value) × CacheState (Option Json.Value) × Nat :=
  CachedValue.getOrCacheValue st.1 (countingCompute (fun _ => computeVariableValue property)) st.2

/-- n consecutive reads of the value getter, collecting every result. -/
def valueReadN (property : Json.Property) :
    Nat → CacheState (Option Json.Value) × Nat →
    List (Except Empty (Option Json.Value)) × CacheState (Option Json.Value) × Nat
  | 0, st => ([], st.1, st.2)
  | n + 1, st =>
    match valueRead property st with
    | (r, c', k') =>
      match valueReadN property n (c', k') with
      | (rs, c'', k'') => (r :: rs, c'', k'')

/-- Modelled from the spec: UserFunctionParameterDefinition — a function
parameter with its defining name token and an optionally present type
sub-property (a raw JSON value, narrowed to a string by the consumer);
UserFunctionParameterDefinition.ts is not under src/. -/
structure UserFunctionParameterDefinition where
  name : Json.StringValue
  type : Option Json.Value

/-- Modelled from the spec: UserFunctionDefinition — a user-defined function
with its name token and its ordered parameter definitions;
UserFunctionDefinition.ts is not under src/. -/
structure UserFunctionDefinition where
  name : Json.StringValue
  parameterDefinitions : List UserFunctionParameterDefinition

/-- Modelled from the spec: UserFunctionNamespaceDefinition — a user-defined
namespace with its name token and its ordered member functions;
UserFunctionNamespaceDefinition.ts is not under src/. -/
structure UserFunctionNamespaceDefinition where
  namespaceName : Json.StringValue
  members : List UserFunctionDefinition

/-- The local getParamUsage function of UserFunctionInfo.getUsage (Hover.ts
lines 67-74).  The two JavaScript truthiness tests are modelled explicitly:
paramType && paramType.toLowerCase() short-circuits on the empty string,
and the final conditional expression tests the resulting value again, so a
parameter whose type text is empty renders as the bare name. -/
def getParamUsage (pd : UserFunctionParameterDefinition) : String :=
  let paramName := pd.name.unquotedValue
  let paramTypeValue : Option Json.StringValue := Json.asStringValue pd.type
  let paramType : Option String := paramTypeValue.map (fun v => v.unquotedValue)
  let paramTypeLC : Option String := paramType.map (fun t => if t = "" then t else jsToLower t)
  match paramTypeLC with
  | some t => if t = "" then paramName else paramName ++ " [" ++ t ++ "]"
  | none => paramName

/-- UserFunctionInfo.getUsage (Hover.ts lines 59-75): optional namespace
prefix (the template literal tests the namespace text for truthiness, so an
empty namespace text yields no dot), the function name, and the parameter
usages joined with a comma and a space. -/
def UserFunctionInfo.getUsage (nsOpt : Option UserFunctionNamespaceDefinition)
    (func : UserFunctionDefinition) : String :=
  let ns : String :=
    match nsOpt with
    | some nsd => nsd.namespaceName.unquotedValue
    | none => ""
  let name := func.name.unquotedValue
  (if ns = "" then ns else ns ++ ".") ++ name ++ "(" ++
    String.intercalate ", " (func.parameterDefinitions.map getParamUsage) ++ ")"

/-- UserFunctionInfo.getHoverText (Hover.ts lines 77-80). -/
def UserFunctionInfo.getHoverText (nsd : UserFunctionNamespaceDefinition)
    (func : UserFunctionDefinition) : String :=
  "**" ++ UserFunctionInfo.getUsage (some nsd) func ++ "** User-defined function"

/-- UserNamespaceInfo.getHoverText (Hover.ts lines 91-101): bolded namespace
name and the literal User-defined namespace suffix, then either a Members
header with one bulleted usage line per member, or a No members line. -/
def UserNamespaceInfo.getHoverText (nsd : UserFunctionNamespaceDefinition) : String :=
  let ns := nsd.namespaceName.unquotedValue
  let methodsUsage : List String := nsd.members.map (fun md => UserFunctionInfo.getUsage none md)
  let summary := "**" ++ ns ++ "** User-defined namespace"
  if methodsUsage.length > 0 then
    summary ++ "\nMembers:\n" ++
      String.intercalate "\n" (methodsUsage.map (fun mu => "* " ++ mu))
  else
    summary ++ "\nNo members"

/-- FunctionInfo.getHoverText (Hover.ts lines 42-44): bolded usage, then the
description on a new line only when the description is truthy (an absent
description reaches the template literal as undefined and an empty one as
the empty string, both falsy, and both are modelled as the empty string). -/
def FunctionInfo.getHoverText (usage description : String) : String :=
  "**" ++ usage ++ "**" ++ (if description = "" then "" else "\n" ++ description)

/-- ParameterReferenceInfo.getHoverText (Hover.ts lines 112-114): bolded
name with the parameter role suffix, then the description on a new line
only when the description (typed string-or-null) is truthy. -/
def ParameterReferenceInfo.getHoverText (name : String) (description : Option String) : String :=
  "**" ++ name ++ "** (parameter)" ++
    (match description with
     | some d => if d = "" then "" else "\n" ++ d
     | none => "")

/-- Spec-side join of rendered fragments with a separator, written by
primitive recursion the way the spec reads (first fragment bare, every
further fragment preceded by the separator). -/
def sepJoin (sep : String) : List String → String
  | [] => ""
  | [x] => x
  | x :: xs => x ++ sep ++ sepJoin sep xs

/-- Spec-side rendering of one parameter per the amended usage-formatting
claim: the bare name, or name and bracketed lower-cased type when the
parameter declares a non-empty string-typed type property. -/
def specParamUsage (pd : UserFunctionParameterDefinition) : String :=
  match Json.asStringValue pd.type with
  | some tv =>
    if tv.unquotedValue = "" then pd.name.unquotedValue
    else pd.name.unquotedValue ++ " [" ++ jsToLower tv.unquotedValue ++ "]"
  | none => pd.name.unquotedValue

/-- Spec-side usage string per the amended usage-formatting claim: dotted
namespace text when a namespace with non-empty name text is supplied, the
function name, and the parameters joined by a comma and a space. -/
def specUsage (nsOpt : Option UserFunctionNamespaceDefinition)
    (func : UserFunctionDefinition) : String :=
  let pre : String :=
    match nsOpt with
    | some nsd =>
      if nsd.namespaceName.unquotedValue = "" then ""
      else nsd.namespaceName.unquotedValue ++ "."
    | none => ""
  pre ++ func.name.unquotedValue ++ "(" ++
    sepJoin ", " (func.parameterDefinitions.map specParamUsage) ++ ")"

/-- Rendering of one parameter exactly as the original usage-formatting
claim words it: name and bracketed lower-cased type whenever the parameter
declares a string-typed type property, the bare name otherwise. -/
def claimParamUsage (pd : UserFunctionParameterDefinition) : String :=
  match Json.asStringValue pd.type with
  | some tv => pd.name.unquotedValue ++ " [" ++ jsToLower tv.unquotedValue ++ "]"
  | none => pd.name.unquotedValue

/-- Usage string exactly as the original usage-formatting claim words it:
the dotted namespace prefix is omitted only when the namespace argument is
absent. -/
def claimUsage (nsOpt : Option UserFunctionNamespaceDefinition)
    (func : UserFunctionDefinition) : String :=
  (match nsOpt with
   | some nsd => nsd.namespaceName.unquotedValue ++ "."
   | none => "") ++ func.name.unquotedValue ++ "(" ++
    sepJoin ", " (func.parameterDefinitions.map claimParamUsage) ++ ")"

/-- Spec-side bulleted member lines: one line per usage string, each
prefixed by an asterisk and a space, separated by newlines. -/
def specBulletLines : List String → String
  | [] => ""
  | [m] => "* " ++ m
  | m :: rest => "* " ++ m ++ "\n" ++ specBulletLines rest

/-- Spec-side namespace hover text per the namespace-hover claim: bolded
namespace name and the literal suffix, then either the single No members
line or the Members header followed by one bulleted usage line per member
in declaration order. -/
def specNamespaceHoverText (nsd : UserFunctionNamespaceDefinition) : String :=
  let header := "**" ++ nsd.namespaceName.unquotedValue ++ "** User-defined namespace"
  match nsd.members with
  | [] => header ++ "\nNo members"
  | ms => header ++ "\nMembers:\n" ++
      specBulletLines (ms.map (fun m => UserFunctionInfo.getUsage none m))

/-- Spec-side retained-member list for copy-block expansion: the original
members with every property whose name case-insensitively equals copy
removed, original relative order kept. -/
def specRetainedMembers : List Json.Property → List Json.Property
  | [] => []
  | p :: rest =>
    if jsToLower p.nameValue.unquotedValue = "copy" then specRetainedMembers rest
    else p :: specRetainedMembers rest

/-- Spec-side synthesized member for one copy-array element: when the
element is an object with a string-valued name property and a present input
property, a new property named by the name text whose value is a one-element
array holding the input verbatim; nothing otherwise. -/
def specSynthesizedOne (e : Json.Value) : Option Json.Property :=
  (Json.asObjectValue (some e)).bind (fun o =>
    match Json.asStringValue (o.getPropertyValue "name"), o.getPropertyValue "input" with
    | some nm, some input =>
      some (Json.Property.mk input.span nm (some (Json.Value.arrayValue input.span [input])))
    | _, _ => none)

/-- Spec-side synthesized-member list for copy-block expansion: the
synthesized members of the copy-array elements in copy-array order,
elements yielding none skipped. -/
def specSynthesizedMembers : List Json.Value → List Json.Property
  | [] => []
  | e :: rest =>
    match specSynthesizedOne e with
    | some p => p :: specSynthesizedMembers rest
    | none => specSynthesizedMembers rest

/-- A copy-array element is malformed when it is not a JSON object, or it
lacks a string-valued name property, or it lacks a present input property
(the wording of the malformed-element claim). -/
def isMalformedCopyElement (v : Json.Value) : Prop :=
  Json.asObjectValue (some v) = none ∨
    ∃ o, Json.asObjectValue (some v) = some o ∧
      (Json.asStringValue (o.getPropertyValue "name") = none ∨
        o.getPropertyValue "input" = none)

/-- Fixture: a distinct span. -/
def exSpan (n : Nat) : Language.Span := ⟨n, 1⟩

/-- Fixture: a JSON string value. -/
def exStr (n : Nat) (text : String) : Json.Value :=
  Json.Value.stringValue ⟨exSpan n, text⟩

/-- Fixture: a JSON property with a present value. -/
def exProp (n : Nat) (name : String) (v : Json.Value) : Json.Property :=
  Json.Property.mk (exSpan n) ⟨exSpan (n + 1), name⟩ (some v)

/-- Fixture: the copy-array loop spec with name disks, count 5 and input X. -/
def exLoopSpec : Json.Value :=
  Json.Value.objectValue (exSpan 10)
    [exProp 11 "name" (exStr 13 "disks"),
     exProp 14 "count" (Json.Value.otherValue (exSpan 16) 5),
     exProp 17 "input" (exStr 19 "X")]

/-- Fixture: a variable value holding a copy array with one loop spec and
one further member named other. -/
def exCopyValue : Json.Value :=
  Json.Value.objectValue (exSpan 0)
    [exProp 1 "copy" (Json.Value.arrayValue (exSpan 3) [exLoopSpec]),
     exProp 4 "other" (Json.Value.otherValue (exSpan 6) 1)]

/-- Fixture: the wrapped variable property for the copy-expansion examples. -/
def exCopyProperty : Json.Property :=
  Json.Property.mk (exSpan 20) ⟨exSpan 21, "v"⟩ (some exCopyValue)

/-- Fixture: a copy-array element with only a name property. -/
def exNameOnly : Json.Value :=
  Json.Value.objectValue (exSpan 30) [exProp 31 "name" (exStr 33 "x")]

/-- Fixture: a copy-array element with a name and an input property. -/
def exNameInput : Json.Value :=
  Json.Value.objectValue (exSpan 40)
    [exProp 41 "name" (exStr 43 "x"),
     exProp 44 "input" (Json.Value.otherValue (exSpan 46) 1)]

/-- Fixture: a copy-array element with only an input property. -/
def exInputOnly : Json.Value :=
  Json.Value.objectValue (exSpan 50) [exProp 51 "input" (Json.Value.otherValue (exSpan 53) 1)]

/-- Fixture: the definition createIfValid builds for exNameInput. -/
def exNameInputDef : TopLevelCopyBlockVariableDefinition :=
  { copyVariableObject :=
      ⟨exSpan 40,
       [exProp 41 "name" (exStr 43 "x"),
        exProp 44 "input" (Json.Value.otherValue (exSpan 46) 1)]⟩
    nameValue := ⟨exSpan 43, "x"⟩
    value := some (Json.Value.arrayValue (exSpan 46) [Json.Value.otherValue (exSpan 46) 1]) }

/-- Fixture: a variable property whose value is an object whose copy member
is a string, not an array. -/
def exNoCopyProperty : Json.Property :=
  Json.Property.mk (exSpan 60) ⟨exSpan 61, "v"⟩
    (some (Json.Value.objectValue (exSpan 62) [exProp 63 "copy" (exStr 65 "notarray")]))

/-- Fixture: a malformed copy-array element (object lacking input). -/
def exBadElement : Json.Value :=
  Json.Value.objectValue (exSpan 70) [exProp 71 "name" (exStr 73 "bad")]

/-- Fixture: a second well-formed loop spec with name disks2 and input Y. -/
def exLoopSpec2 : Json.Value :=
  Json.Value.objectValue (exSpan 80)
    [exProp 81 "name" (exStr 83 "disks2"),
     exProp 84 "input" (exStr 86 "Y")]

/-- Fixture: a variable property whose copy array holds a well-formed loop
spec, a malformed element and another well-formed loop spec. -/
def exCopyPropertyWithBad : Json.Property :=
  Json.Property.mk (exSpan 94) ⟨exSpan 95, "v"⟩
    (some (Json.Value.objectValue (exSpan 90)
      [exProp 91 "copy"
        (Json.Value.arrayValue (exSpan 93) [exLoopSpec, exBadElement, exLoopSpec2])]))

/-- Fixture: a namespace definition whose name text is empty. -/
def exEmptyNamespace : UserFunctionNamespaceDefinition :=
  { namespaceName := ⟨exSpan 100, ""⟩, members := [] }

/-- Fixture: a function named f with one parameter a whose declared type is
the empty string. -/
def exEdgeFunction : UserFunctionDefinition :=
  { name := ⟨exSpan 101, "f"⟩
    parameterDefinitions := [{ name := ⟨exSpan 102, "a"⟩, type := some (exStr 103 "") }] }

/-- jsToLower is String.toLower. -/
lemma jsToLower_eq_toLower (s : String) : jsToLower s = s.toLower := by
  rw [String.toLower, String.map_eq]
  rfl

/-- Helper: the tail-recursive worker of String.intercalate agrees with the
spec-side primitive-recursive join once the accumulator is made the head. -/
lemma intercalate_go_eq_sepJoin (sep : String) :
    ∀ (l : List String) (acc : String),
      String.intercalate.go acc sep l = sepJoin sep (acc :: l) := by
  intro l
  induction l with
  | nil => intro acc; rfl
  | cons b bs ih =>
    intro acc
    rw [String.intercalate.go, ih]
    cases bs with
    | nil => rfl
    | cons c cs => simp [sepJoin, String.append_assoc]

/-- Helper: String.intercalate agrees with the spec-side join. -/
lemma intercalate_eq_sepJoin (sep : String) (l : List String) :
    String.intercalate sep l = sepJoin sep l := by
  cases l with
  | nil => rfl
  | cons a as => simpa [String.intercalate] using intercalate_go_eq_sepJoin sep as a

/-- Helper: lower-casing a non-empty string gives a non-empty string. -/
lemma jsToLower_ne_empty {t : String} (h : t ≠ "") : jsToLower t ≠ "" := by
  intro hc
  apply h
  cases t with
  | mk data =>
    cases data with
    | nil => rfl
    | cons c cs =>
      have hd := congrArg String.data hc
      simp [jsToLower] at hd

/-- Helper: the per-parameter rendering of the code agrees with the spec-side
per-parameter rendering. -/
lemma getParamUsage_eq_spec (pd : UserFunctionParameterDefinition) :
    getParamUsage pd = specParamUsage pd := by
  unfold getParamUsage specParamUsage
  cases h : Json.asStringValue pd.type with
  | none => simp
  | some tv =>
    by_cases he : tv.unquotedValue = ""
    · simp [he]
    · simp [he, jsToLower_ne_empty he]

/-- Helper: the copy key lower-cases to itself. -/
lemma jsToLower_copyKey : jsToLower templateKeys.copy = "copy" := rfl

/-- Helper: the case-insensitive member filter of the code agrees with the
spec-side retained-member list. -/
lemma filter_eq_specRetainedMembers (ps : List Json.Property) :
    ps.filter (fun prop => jsToLower prop.nameValue.unquotedValue != jsToLower templateKeys.copy)
      = specRetainedMembers ps := by
  simp only [jsToLower_copyKey]
  induction ps with
  | nil => rfl
  | cons p rest ih =>
    rw [List.filter_cons]
    by_cases h : jsToLower p.nameValue.unquotedValue = "copy"
    · simp [specRetainedMembers, h, ih]
    · simp [specRetainedMembers, h, ih]

/-- Helper: the loop body of the code agrees with the spec-side per-element
synthesized member (the well-known key constants are the literal names the
spec uses). -/
lemma copyElementToProperty_eq_specSynthesizedOne (e : Json.Value) :
    copyElementToProperty e = specSynthesizedOne e := by
  unfold copyElementToProperty specSynthesizedOne
  cases Json.asObjectValue (some e) <;> rfl

/-- Helper: the for-loop of the code over the copy array agrees with the
spec-side synthesized-member list. -/
lemma filterMap_eq_specSynthesizedMembers (es : List Json.Value) :
    es.filterMap copyElementToProperty = specSynthesizedMembers es := by
  induction es with
  | nil => rfl
  | cons e rest ih =>
    rw [List.filterMap_cons, copyElementToProperty_eq_specSynthesizedOne]
    unfold specSynthesizedMembers
    cases h : specSynthesizedOne e with
    | none => simpa using ih
    | some p => simpa using ih

/-- Helper: every read from a computed cell returns the stored value and
leaves the cell and the invocation counter unchanged. -/
lemma valueReadN_computed (property : Json.Property) :
    ∀ (n : Nat) (v : Option Json.Value) (k : Nat),
      valueReadN property n (CacheState.computed v, k)
        = (List.replicate n (Except.ok v), CacheState.computed v, k) := by
  intro n
  induction n with
  | zero => intro v k; rfl
  | succ m ih =>
    intro v k
    simp [valueReadN, valueRead, CachedValue.getOrCacheValue, ih, List.replicate]

/-- C3: the first getOrCacheValue call on an uncomputed cell invokes the
compute function exactly once (the instrumentation counter moves from k to
k + 1), stores the result and returns it; every later call, with any
compute function, returns the identical stored value without invoking the
function passed (result and state are independent of it); consequently
reading the cached value getter of a variable definition n + 1 > 1 times
from a fresh cell yields the identical computed value every time with
exactly one underlying computation. -/
theorem cachedValue_computes_once :
    (∀ (T : Type) (f : Unit → T) (k : Nat),
      CachedValue.getOrCacheValue CacheState.uncomputed (countingCompute f) k
        = (Except.ok (f ()), CacheState.computed (f ()), k + 1))
    ∧ (∀ (T ε σ : Type) (v : T) (g : σ → Except ε T × σ) (s : σ),
      CachedValue.getOrCacheValue (CacheState.computed v) g s
        = (Except.ok v, CacheState.computed v, s))
    ∧ (∀ (property : Json.Property) (n : Nat),
      valueReadN property (n + 1) (CacheState.uncomputed, 0)
        = (List.replicate (n + 1) (Except.ok (computeVariableValue property)),
           CacheState.computed (computeVariableValue property), 1)) := by
  refine ⟨?_, ?_, ?_⟩
  · intro T f k; rfl
  · intro T ε σ v g s; rfl
  · intro property n
    simp [valueReadN, valueRead, CachedValue.getOrCacheValue, countingCompute,
      valueReadN_computed, List.replicate]

/-- C4: when the compute function passed to getOrCacheValue throws, the
exception propagates to the caller and the cell stays uncomputed, so a
subsequent call invokes its compute function again (and a succeeding
retry stores and returns its result). -/
theorem cachedValue_error_propagates
    {T ε σ : Type} (calcF : σ → Except ε T × σ) (s s' : σ) (e : ε)
    (h : calcF s = (Except.error e, s')) :
    CachedValue.getOrCacheValue CacheState.uncomputed calcF s
        = (Except.error e, CacheState.uncomputed, s')
    ∧ ∀ (calcG : σ → Except ε T × σ) (v : T) (s'' : σ),
        calcG s' = (Except.ok v, s'') →
        CachedValue.getOrCacheValue CacheState.uncomputed calcG s'
          = (Except.ok v, CacheState.computed v, s'') := by
  constructor
  · simp [CachedValue.getOrCacheValue, h]
  · intro calcG v s'' h₂
    simp [CachedValue.getOrCacheValue, h₂]

/-- Witness for C4 at a concrete throwing compute function over Nat state:
the error propagates with the cell left uncomputed, and a succeeding retry
computes. -/
theorem cachedValue_error_propagates_witness :
    CachedValue.getOrCacheValue (CacheState.uncomputed : CacheState Nat)
        (fun s => ((Except.error 7 : Except Nat Nat), s + 1)) 0
      = (Except.error 7, CacheState.uncomputed, 1)
    ∧ CachedValue.getOrCacheValue (CacheState.uncomputed : CacheState Nat)
        (fun s => ((Except.ok 3 : Except Nat Nat), s + 1)) 1
      = (Except.ok 3, CacheState.computed 3, 2) := by
  have h := cachedValue_error_propagates
    (fun s => ((Except.error 7 : Except Nat Nat), s + 1)) 0 1 7 rfl
  exact ⟨h.1, h.2 (fun s => ((Except.ok 3 : Except Nat Nat), s + 1)) 3 2 rfl⟩

/-- Helper: the general shape of copy-block expansion — when the wrapped
value is an object whose copy lookup yields an array, the computed value is
the synthesized object built from the retained members and the synthesized
members. -/
lemma computeVariableValue_expansion
    (property : Json.Property) (valueObject : Json.ObjectValueData)
    (copyArr : Json.ArrayValueData)
    (hobj : Json.asObjectValue property.value = some valueObject)
    (harr : Json.asArrayValue (valueObject.getPropertyValue templateKeys.copy) = some copyArr) :
    computeVariableValue property =
      some (Json.Value.objectValue valueObject.span
        (specRetainedMembers valueObject.properties ++
          specSynthesizedMembers copyArr.elements)) := by
  simp only [computeVariableValue, hobj, harr,
    filter_eq_specRetainedMembers, filterMap_eq_specSynthesizedMembers]

/-- Helper: specSynthesizedMembers distributes over list append. -/
lemma specSynthesizedMembers_append (l₁ l₂ : List Json.Value) :
    specSynthesizedMembers (l₁ ++ l₂)
      = specSynthesizedMembers l₁ ++ specSynthesizedMembers l₂ := by
  induction l₁ with
  | nil => rfl
  | cons e rest ih =>
    simp only [List.cons_append, specSynthesizedMembers]
    cases h : specSynthesizedOne e <;> simp [h, ih]

/-- Helper: a malformed copy-array element synthesizes nothing. -/
lemma specSynthesizedOne_of_malformed {bad : Json.Value}
    (h : isMalformedCopyElement bad) : specSynthesizedOne bad = none := by
  unfold specSynthesizedOne
  rcases h with h | ⟨o, ho, h2⟩
  · rw [h]
    rfl
  · rw [ho, Option.some_bind]
    rcases h2 with hn | hi
    · rw [hn]
    · rw [hi]
      cases Json.asStringValue (o.getPropertyValue "name") <;> rfl

/-- C2: when the wrapped property value is a JSON object whose copy lookup
yields a JSON array, the value getter computes a synthesized object in
which every property case-insensitively named copy is removed, the
remaining members keep their original relative order, and for each copy
element that is an object with a string name property and a present input
property a new property is appended, named by the name text, whose value is
a one-element array holding the input verbatim. -/
theorem copy_block_expansion
    (property : Json.Property) (valueObject : Json.ObjectValueData)
    (copyArr : Json.ArrayValueData)
    (hobj : Json.asObjectValue property.value = some valueObject)
    (harr : Json.asArrayValue (valueObject.getPropertyValue templateKeys.copy) = some copyArr) :
    computeVariableValue property =
      some (Json.Value.objectValue valueObject.span
        (specRetainedMembers valueObject.properties ++
          specSynthesizedMembers copyArr.elements)) :=
  computeVariableValue_expansion property valueObject copyArr hobj harr

/-- Witness for C2 at the example of the spec: a variable value holding a copy
array with the disks loop spec and an other member computes to the object
holding other followed by disks bound to the one-element array with X. -/
theorem copy_block_expansion_witness :
    computeVariableValue exCopyProperty =
      some (Json.Value.objectValue (exSpan 0)
        [exProp 4 "other" (Json.Value.otherValue (exSpan 6) 1),
         Json.Property.mk (exSpan 19) ⟨exSpan 13, "disks"⟩
           (some (Json.Value.arrayValue (exSpan 19) [exStr 19 "X"]))]) :=
  copy_block_expansion exCopyProperty
    ⟨exSpan 0,
     [exProp 1 "copy" (Json.Value.arrayValue (exSpan 3) [exLoopSpec]),
      exProp 4 "other" (Json.Value.otherValue (exSpan 6) 1)]⟩
    ⟨exSpan 3, [exLoopSpec]⟩ rfl rfl

/-- C5: when the wrapped property value is not an object whose copy lookup
yields an array — a non-object value, an object without a copy member, or
an object whose copy member is not an array — the value getter returns the
wrapped value itself, unchanged. -/
theorem no_copy_passthrough
    (property : Json.Property)
    (h : ∀ o, Json.asObjectValue property.value = some o →
      Json.asArrayValue (o.getPropertyValue templateKeys.copy) = none) :
    computeVariableValue property = property.value := by
  cases ho : Json.asObjectValue property.value with
  | none => simp [computeVariableValue, ho]
  | some o => simp [computeVariableValue, ho, h o ho]

/-- Witness for C5 at an object value whose copy member is a string: the
computed value is the wrapped value itself. -/
theorem no_copy_passthrough_witness :
    computeVariableValue exNoCopyProperty = exNoCopyProperty.value :=
  no_copy_passthrough exNoCopyProperty (fun o ho => by
    rw [show Json.asObjectValue exNoCopyProperty.value
          = some (⟨exSpan 62, [exProp 63 "copy" (exStr 65 "notarray")]⟩ : Json.ObjectValueData)
        from rfl] at ho
    cases ho
    rfl)

/-- C6: during copy-block expansion, a copy-array element that is not an
object, or lacks a string-valued name property, or lacks a present input
property, contributes no synthesized member and raises no failure: the
loop body yields nothing for it and the computed value is exactly the
expansion over the remaining elements. -/
theorem malformed_copy_element_skipped
    (property : Json.Property) (valueObject : Json.ObjectValueData)
    (copySpan : Language.Span) (pre post : List Json.Value) (bad : Json.Value)
    (hobj : Json.asObjectValue property.value = some valueObject)
    (harr : valueObject.getPropertyValue templateKeys.copy
      = some (Json.Value.arrayValue copySpan (pre ++ bad :: post)))
    (hbad : isMalformedCopyElement bad) :
    copyElementToProperty bad = none ∧
    computeVariableValue property =
      some (Json.Value.objectValue valueObject.span
        (specRetainedMembers valueObject.properties ++
          specSynthesizedMembers (pre ++ post))) := by
  have hone : specSynthesizedOne bad = none := specSynthesizedOne_of_malformed hbad
  constructor
  · rw [copyElementToProperty_eq_specSynthesizedOne, hone]
  · have harr2 : Json.asArrayValue (valueObject.getPropertyValue templateKeys.copy)
        = some ⟨copySpan, pre ++ bad :: post⟩ := by rw [harr]; rfl
    rw [computeVariableValue_expansion property valueObject
      ⟨copySpan, pre ++ bad :: post⟩ hobj harr2]
    have hskip : specSynthesizedMembers (bad :: post) = specSynthesizedMembers post := by
      simp only [specSynthesizedMembers, hone]
    rw [specSynthesizedMembers_append, hskip, ← specSynthesizedMembers_append]

/-- Witness for C6 at a copy array holding a well-formed loop spec, an
object lacking input, and a second well-formed loop spec: the malformed
element is skipped and both loop specs still synthesize members. -/
theorem malformed_copy_element_skipped_witness :
    copyElementToProperty exBadElement = none ∧
    computeVariableValue exCopyPropertyWithBad =
      some (Json.Value.objectValue (exSpan 90)
        [Json.Property.mk (exSpan 19) ⟨exSpan 13, "disks"⟩
           (some (Json.Value.arrayValue (exSpan 19) [exStr 19 "X"])),
         Json.Property.mk (exSpan 86) ⟨exSpan 83, "disks2"⟩
           (some (Json.Value.arrayValue (exSpan 86) [exStr 86 "Y"]))]) :=
  malformed_copy_element_skipped exCopyPropertyWithBad
    ⟨exSpan 90,
     [exProp 91 "copy"
       (Json.Value.arrayValue (exSpan 93) [exLoopSpec, exBadElement, exLoopSpec2])]⟩
    (exSpan 93) [exLoopSpec] [exLoopSpec2] exBadElement rfl rfl
    (Or.inr ⟨⟨exSpan 70, [exProp 71 "name" (exStr 73 "bad")]⟩, rfl, Or.inr rfl⟩)

/-- C10: span bookkeeping of copy-block expansion — every synthesized
member carries the span of the input node of its loop spec, both on the wrapping
property and on the one-element array, the synthesized enclosing object
carries the span of the original variable-value object, and the eagerly
built value of a copy-block variable definition likewise carries the span
of its input node. -/
theorem synthesized_spans :
    (∀ (loopVar : Json.Value) (p : Json.Property),
      copyElementToProperty loopVar = some p →
      ∃ o input, Json.asObjectValue (some loopVar) = some o ∧
        o.getPropertyValue templateKeys.loopVarInput = some input ∧
        p.span = input.span ∧
        p.value = some (Json.Value.arrayValue input.span [input]))
    ∧ (∀ (property : Json.Property) (valueObject : Json.ObjectValueData)
        (copyArr : Json.ArrayValueData),
      Json.asObjectValue property.value = some valueObject →
      Json.asArrayValue (valueObject.getPropertyValue templateKeys.copy) = some copyArr →
      ∃ members, computeVariableValue property
        = some (Json.Value.objectValue valueObject.span members))
    ∧ (∀ (v : Json.Value) (d : TopLevelCopyBlockVariableDefinition) (input : Json.Value),
      TopLevelCopyBlockVariableDefinition.createIfValid v = some d →
      d.copyVariableObject.getPropertyValue templateKeys.loopVarInput = some input →
      d.value = some (Json.Value.arrayValue input.span [input])) := by
  refine ⟨?_, ?_, ?_⟩
  · intro loopVar p hp
    unfold copyElementToProperty at hp
    cases ho : Json.asObjectValue (some loopVar) with
    | none => simp only [ho] at hp; exact Option.noConfusion hp
    | some o =>
      simp only [ho] at hp
      cases hn : Json.asStringValue (o.getPropertyValue templateKeys.loopVarName) with
      | none => simp only [hn] at hp; exact Option.noConfusion hp
      | some nm =>
        simp only [hn] at hp
        cases hi : o.getPropertyValue templateKeys.loopVarInput with
        | none => simp only [hi] at hp; exact Option.noConfusion hp
        | some input =>
          simp only [hi, Option.some.injEq] at hp
          subst hp
          exact ⟨o, input, rfl, hi, rfl, rfl⟩
  · intro property valueObject copyArr hobj harr
    exact ⟨_, computeVariableValue_expansion property valueObject copyArr hobj harr⟩
  · intro v d input hd hi
    unfold TopLevelCopyBlockVariableDefinition.createIfValid at hd
    cases ho : Json.asObjectValue (some v) with
    | none => simp only [ho] at hd; exact Option.noConfusion hd
    | some asObject =>
      simp only [ho] at hd
      cases hn : Json.asStringValue (asObject.getPropertyValue templateKeys.loopVarName) with
      | none => simp only [hn] at hd; exact Option.noConfusion hd
      | some nameValue =>
        simp only [hn, Option.some.injEq] at hd
        subst hd
        have hi' : asObject.getPropertyValue templateKeys.loopVarInput = some input := hi
        show Option.map (fun input => Json.Value.arrayValue input.span [input])
            (asObject.getPropertyValue templateKeys.loopVarInput)
          = some (Json.Value.arrayValue input.span [input])
        rw [hi']
        rfl

/-- Witness for C10 at the fixtures: the disks loop spec synthesizes a
member carrying the span of its input node, the expansion of the example
variable yields an object carrying the span of the original value object,
and the copy-block definition built from the name-and-input object carries
the span of its input node. -/
theorem synthesized_spans_witness :
    (∃ o input, Json.asObjectValue (some exLoopSpec) = some o ∧
      o.getPropertyValue templateKeys.loopVarInput = some input ∧
      (Json.Property.mk (exSpan 19) ⟨exSpan 13, "disks"⟩
        (some (Json.Value.arrayValue (exSpan 19) [exStr 19 "X"]))).span = input.span ∧
      (Json.Property.mk (exSpan 19) ⟨exSpan 13, "disks"⟩
        (some (Json.Value.arrayValue (exSpan 19) [exStr 19 "X"]))).value
        = some (Json.Value.arrayValue input.span [input]))
    ∧ (∃ members, computeVariableValue exCopyProperty
        = some (Json.Value.objectValue (exSpan 0) members))
    ∧ exNameInputDef.value
        = some (Json.Value.arrayValue (exSpan 46) [Json.Value.otherValue (exSpan 46) 1]) :=
  ⟨synthesized_spans.1 exLoopSpec
      (Json.Property.mk (exSpan 19) ⟨exSpan 13, "disks"⟩
        (some (Json.Value.arrayValue (exSpan 19) [exStr 19 "X"]))) rfl,
   synthesized_spans.2.1 exCopyProperty
      ⟨exSpan 0,
       [exProp 1 "copy" (Json.Value.arrayValue (exSpan 3) [exLoopSpec]),
        exProp 4 "other" (Json.Value.otherValue (exSpan 6) 1)]⟩
      ⟨exSpan 3, [exLoopSpec]⟩ rfl rfl,
   synthesized_spans.2.2 exNameInput exNameInputDef
      (Json.Value.otherValue (exSpan 46) 1) rfl rfl⟩

/-- Counterexample to C1 as stated: for the object holding only a
string-valued name property — the input property is absent — createIfValid
still returns a definition, where the claim requires it to return nothing. -/
theorem createIfValid_counterexample :
    (TopLevelCopyBlockVariableDefinition.createIfValid exNameOnly).isSome = true
    ∧ Json.asObjectValue (some exNameOnly)
        = some ⟨exSpan 30, [exProp 31 "name" (exStr 33 "x")]⟩
    ∧ (⟨exSpan 30, [exProp 31 "name" (exStr 33 "x")]⟩ :
        Json.ObjectValueData).getPropertyValue templateKeys.loopVarInput = none :=
  ⟨rfl, rfl, rfl⟩

/-- C1 amended: createIfValid returns a definition exactly when the value
is a JSON object with a string-valued name property — the input property is
not required — and the value of the returned definition is the mapped input
lookup: a one-element array holding the input when the input property is
present, and nothing when it is absent. -/
theorem createIfValid_object_with_name (v : Json.Value) :
    ((TopLevelCopyBlockVariableDefinition.createIfValid v).isSome = true ↔
      ∃ o, Json.asObjectValue (some v) = some o ∧
        (Json.asStringValue (o.getPropertyValue templateKeys.loopVarName)).isSome = true)
    ∧ ∀ d, TopLevelCopyBlockVariableDefinition.createIfValid v = some d →
        d.value = (d.copyVariableObject.getPropertyValue templateKeys.loopVarInput).map
          (fun input => Json.Value.arrayValue input.span [input]) := by
  cases ho : Json.asObjectValue (some v) with
  | none =>
    refine ⟨?_, ?_⟩
    · simp only [TopLevelCopyBlockVariableDefinition.createIfValid, ho]
      simp
    · intro d hd
      simp only [TopLevelCopyBlockVariableDefinition.createIfValid, ho] at hd
      exact Option.noConfusion hd
  | some o =>
    cases hn : Json.asStringValue (o.getPropertyValue templateKeys.loopVarName) with
    | none =>
      refine ⟨?_, ?_⟩
      · simp only [TopLevelCopyBlockVariableDefinition.createIfValid, ho, hn]
        simp [hn]
      · intro d hd
        simp only [TopLevelCopyBlockVariableDefinition.createIfValid, ho, hn] at hd
        exact Option.noConfusion hd
    | some nameValue =>
      refine ⟨?_, ?_⟩
      · simp only [TopLevelCopyBlockVariableDefinition.createIfValid, ho, hn]
        simp [hn]
      · intro d hd
        simp only [TopLevelCopyBlockVariableDefinition.createIfValid, ho, hn,
          Option.some.injEq] at hd
        subst hd
        rfl

/-- Witness for the amended C1 at the object with name and input: a
definition is returned and its value is the one-element array built from
the input lookup. -/
theorem createIfValid_object_with_name_witness :
    (TopLevelCopyBlockVariableDefinition.createIfValid exNameInput).isSome = true
    ∧ exNameInputDef.value
        = (exNameInputDef.copyVariableObject.getPropertyValue templateKeys.loopVarInput).map
            (fun input => Json.Value.arrayValue input.span [input]) :=
  ⟨(createIfValid_object_with_name exNameInput).1.mpr
      ⟨⟨exSpan 40,
        [exProp 41 "name" (exStr 43 "x"),
         exProp 44 "input" (Json.Value.otherValue (exSpan 46) 1)]⟩, rfl, rfl⟩,
   (createIfValid_object_with_name exNameInput).2 exNameInputDef rfl⟩

/-- Counterexample to C7 as stated: for a supplied namespace whose name
text is empty and a parameter whose declared type is the empty string, the
code renders the bare function name and the bare parameter name, while the
format of the claim prescribes a dotted prefix and a bracketed type. -/
theorem getUsage_counterexample :
    UserFunctionInfo.getUsage (some exEmptyNamespace) exEdgeFunction = "f(a)"
    ∧ claimUsage (some exEmptyNamespace) exEdgeFunction = ".f(a [])"
    ∧ UserFunctionInfo.getUsage (some exEmptyNamespace) exEdgeFunction
        ≠ claimUsage (some exEmptyNamespace) exEdgeFunction := by
  refine ⟨rfl, rfl, ?_⟩
  decide

/-- C7 amended: getUsage renders the dotted namespace prefix exactly when a
namespace with non-empty name text is supplied, renders each parameter as
its bare name or as the name followed by the bracketed lower-cased type
exactly when the parameter declares a non-empty string-typed type property,
and joins parameters with a comma and a space. -/
theorem getUsage_formats (nsOpt : Option UserFunctionNamespaceDefinition)
    (func : UserFunctionDefinition) :
    UserFunctionInfo.getUsage nsOpt func = specUsage nsOpt func := by
  unfold UserFunctionInfo.getUsage specUsage
  rw [intercalate_eq_sepJoin, funext getParamUsage_eq_spec]
  cases nsOpt with
  | none => simp
  | some nsd =>
    by_cases h : nsd.namespaceName.unquotedValue = ""
    · simp [h]
    · simp [h]

/-- Helper: joining bulleted lines with newlines agrees with the spec-side
bulleted-lines rendering. -/
lemma sepJoin_bullets (l : List String) :
    sepJoin "\n" (l.map (fun mu => "* " ++ mu)) = specBulletLines l := by
  induction l with
  | nil => rfl
  | cons m rest ih =>
    cases rest with
    | nil => rfl
    | cons m2 rest2 =>
      simp only [List.map_cons] at ih ⊢
      simp only [sepJoin, specBulletLines]
      rw [ih]

/-- C8: the namespace hover text is the bolded namespace name with the
User-defined namespace suffix, followed by the single No members line when
the namespace has no members, and otherwise by a Members header and one
bulleted usage line per member in declaration order. -/
theorem namespace_hover_text (nsd : UserFunctionNamespaceDefinition) :
    UserNamespaceInfo.getHoverText nsd = specNamespaceHoverText nsd := by
  unfold UserNamespaceInfo.getHoverText specNamespaceHoverText
  cases hm : nsd.members with
  | nil => simp
  | cons m ms =>
    simp only [intercalate_eq_sepJoin, sepJoin_bullets]
    simp

/-- C9: a function hover and a parameter-reference hover whose description
is absent or empty render exactly the single bolded line with nothing
appended, and a non-empty description is appended on a new line. -/
theorem hover_text_omits_empty_description (u d n : String) (hd : d ≠ "") :
    FunctionInfo.getHoverText u "" = "**" ++ u ++ "**"
    ∧ FunctionInfo.getHoverText u d = "**" ++ u ++ "**" ++ "\n" ++ d
    ∧ ParameterReferenceInfo.getHoverText n none = "**" ++ n ++ "** (parameter)"
    ∧ ParameterReferenceInfo.getHoverText n (some "") = "**" ++ n ++ "** (parameter)"
    ∧ ParameterReferenceInfo.getHoverText n (some d)
        = "**" ++ n ++ "** (parameter)" ++ "\n" ++ d := by
  refine ⟨?_, ?_, ?_, ?_, ?_⟩ <;>
    (simp [FunctionInfo.getHoverText, ParameterReferenceInfo.getHoverText, hd,
      String.append_assoc] <;> try rfl)

/-- Witness for C9 at concrete usage, name and description strings. -/
theorem hover_text_omits_empty_description_witness :
    FunctionInfo.getHoverText "f()" "" = "**f()**"
    ∧ FunctionInfo.getHoverText "f()" "D" = "**f()**" ++ "\n" ++ "D"
    ∧ ParameterReferenceInfo.getHoverText "p" none = "**p** (parameter)"
    ∧ ParameterReferenceInfo.getHoverText "p" (some "") = "**p** (parameter)"
    ∧ ParameterReferenceInfo.getHoverText "p" (some "D")
        = "**p** (parameter)" ++ "\n" ++ "D" :=
  hover_text_omits_empty_description "f()" "D" "p" (by decide)
